import Mathlib

/-!
Verification of the keyboard-layout detection and conversion engine of the
clipper repository (src/clipper/processors/layout_detector.py,
src/clipper/processors/layout_converter.py).  Text is modelled as a list of
characters and Python float arithmetic as exact rational arithmetic.  The
static data tables imported from src/clipper/mappings/layouts.py (character
maps, frequency tables, word dictionaries) are not part of the available
sources, so the engine is embedded parametrically over an environment
carrying that data together with the text predicates the Python runtime
supplies (str.isalpha, str.lower, the word-character class of the regex
module, str.strip whitespace); a concrete environment modelled from the
specification instantiates it.
-/

namespace Clipper

/-- Environment: the static tables imported by the detector from
src/clipper/mappings/layouts.py, together with the character predicates
supplied by the Python runtime. -/
structure Env where
  isAlpha : Char → Bool
  lower : Char → Char
  isWordChar : Char → Bool
  isSpace : Char → Bool
  RUSSIAN_CHAR_FREQUENCY : Char → Option ℚ
  ENGLISH_CHAR_FREQUENCY : Char → Option ℚ
  RU_TO_EN_MAPPING : Char → Option Char
  EN_TO_RU_MAPPING : Char → Option Char
  COMMON_RUSSIAN_WORDS : List (List Char)
  COMMON_ENGLISH_WORDS : List (List Char)

/-- Result of layout detection analysis (dataclass LayoutDetectionResult in
layout_detector.py). -/
structure LayoutDetectionResult where
  detected_layout : String
  intended_layout : String
  confidence : ℚ
  needs_conversion : Bool
deriving DecidableEq

/-- Python truthiness of text.strip(): true iff some character is not
whitespace. -/
def hasContent (env : Env) (text : List Char) : Bool :=
  text.any (fun c => !(env.isSpace c))

/-- LayoutConverter._convert_text and LayoutDetector._convert_text: per
character, mapping.get(char, char). -/
def convert_text (mapping : Char → Option Char) (text : List Char) : List Char :=
  text.map (fun c => (mapping c).getD c)

/-- Per-character contribution to the frequency score: for a character in
the table, min(expected relative frequency, actual relative frequency);
otherwise 0. -/
def freq_term (char_freq : Char → Option ℚ) (actual : ℚ) (c : Char) : ℚ :=
  match char_freq c with
  | some f => min (f / 100) actual
  | none => 0

/-- LayoutDetector._calculate_frequency_score: count lowercase alphabetic
characters, then sum min(expected, actual) relative frequencies over the
distinct characters that appear in the frequency table, clamped to 1. -/
def calculate_frequency_score (env : Env) (char_freq : Char → Option ℚ)
    (text : List Char) : ℚ :=
  let chars := (text.map env.lower).filter env.isAlpha
  let total := chars.length
  if total = 0 then 0
  else
    let score := (chars.dedup.map (fun c =>
      freq_term char_freq ((chars.count c : ℚ) / (total : ℚ)) c)).sum
    min score 1

/-- re.findall of maximal runs of word characters: split at non-word
characters and drop empty pieces. -/
def wordRuns (isW : Char → Bool) (text : List Char) : List (List Char) :=
  (text.splitOnP (fun c => !(isW c))).filter (fun w => !w.isEmpty)

/-- Fraction of the given tokens that belong to the dictionary, 0 when
there are no tokens (the common_word_count / len(words) computation shared
by the two word-check methods). -/
def word_fraction (common_words : List (List Char)) (words : List (List Char)) : ℚ :=
  if words = [] then 0
  else ((words.filter (fun w => common_words.contains w)).length : ℚ)
    / (words.length : ℚ)

/-- LayoutDetector._check_common_words_after_conversion: convert the text
with the direction given by conversion_type, lowercase it, tokenize, and
return the fraction of tokens found in the target dictionary. -/
def check_common_words_after_conversion (env : Env) (text : List Char)
    (conversion_type : String) : ℚ :=
  let mapping := if conversion_type = "ru_to_en"
    then env.RU_TO_EN_MAPPING else env.EN_TO_RU_MAPPING
  let common_words := if conversion_type = "ru_to_en"
    then env.COMMON_ENGLISH_WORDS else env.COMMON_RUSSIAN_WORDS
  let converted_text := convert_text mapping text
  word_fraction common_words (wordRuns env.isWordChar (converted_text.map env.lower))

/-- LayoutDetector._check_current_words: tokenize the unconverted lowercased
text and return the fraction of tokens found in the dictionary of the given
language. -/
def check_current_words (env : Env) (text : List Char) (language : String) : ℚ :=
  let common_words := if language = "ru"
    then env.COMMON_RUSSIAN_WORDS else env.COMMON_ENGLISH_WORDS
  word_fraction common_words (wordRuns env.isWordChar (text.map env.lower))

/-- The apparent_layout local of detect_layout: ru exactly when the Russian
character frequency score strictly exceeds the English one. -/
def apparent_layout (env : Env) (text : List Char) : String :=
  if calculate_frequency_score env env.RUSSIAN_CHAR_FREQUENCY text >
      calculate_frequency_score env env.ENGLISH_CHAR_FREQUENCY text
    then "ru" else "en"

/-- The first decision condition of detect_layout: the ru to en conversion
word score strictly exceeds both current word scores and reaches the
threshold. -/
abbrev ru_to_en_accepts (env : Env) (th : ℚ) (text : List Char) : Prop :=
  check_common_words_after_conversion env text "ru_to_en" > check_current_words env text "en"
  ∧ check_common_words_after_conversion env text "ru_to_en" > check_current_words env text "ru"
  ∧ check_common_words_after_conversion env text "ru_to_en" ≥ th

/-- The second decision condition of detect_layout: the en to ru conversion
word score strictly exceeds both current word scores and reaches the
threshold. -/
abbrev en_to_ru_accepts (env : Env) (th : ℚ) (text : List Char) : Prop :=
  check_common_words_after_conversion env text "en_to_ru" > check_current_words env text "ru"
  ∧ check_common_words_after_conversion env text "en_to_ru" > check_current_words env text "en"
  ∧ check_common_words_after_conversion env text "en_to_ru" ≥ th

/-- LayoutDetector.detect_layout with confidence threshold th.  The local
variables of the Python method are inlined through the named helper
definitions above. -/
def detect_layout (env : Env) (th : ℚ) (text : List Char) : LayoutDetectionResult :=
  if hasContent env text = false then
    { detected_layout := "unknown"
      intended_layout := "unknown"
      confidence := 0
      needs_conversion := false }
  else if ru_to_en_accepts env th text then
    { detected_layout := apparent_layout env text
      intended_layout := "en"
      confidence := check_common_words_after_conversion env text "ru_to_en"
      needs_conversion := true }
  else if en_to_ru_accepts env th text then
    { detected_layout := apparent_layout env text
      intended_layout := "ru"
      confidence := check_common_words_after_conversion env text "en_to_ru"
      needs_conversion := true }
  else
    { detected_layout := apparent_layout env text
      intended_layout := apparent_layout env text
      confidence := max (calculate_frequency_score env env.RUSSIAN_CHAR_FREQUENCY text)
        (calculate_frequency_score env env.ENGLISH_CHAR_FREQUENCY text)
      needs_conversion := false }

/-- LayoutConverter.can_process. -/
def can_process (env : Env) (th : ℚ) (text : List Char) : Bool :=
  if hasContent env text = false then false
  else (detect_layout env th text).needs_conversion

/-- LayoutConverter.process. -/
def process (env : Env) (th : ℚ) (text : List Char) : List Char :=
  if hasContent env text = false then text
  else
    let detection := detect_layout env th text
    if detection.needs_conversion = false then text
    else if detection.detected_layout = "ru" ∧ detection.intended_layout = "en" then
      convert_text env.RU_TO_EN_MAPPING text
    else if detection.detected_layout = "en" ∧ detection.intended_layout = "ru" then
      convert_text env.EN_TO_RU_MAPPING text
    else
      text

/-- Modelled from the spec: the bidirectional CharacterMap of
src/clipper/mappings/layouts.py, absent from the available sources.  Per
the spec it pairs each letter of one alphabet with the letter at the same
physical key position of the other (QWERTY versus the standard Russian
layout), is structurally inverse in both directions, and leaves
non-alphabetic characters unmapped.  Listed as (Cyrillic, Latin) pairs,
lowercase then uppercase. -/
def LAYOUT_PAIRS : List (Char × Char) :=
  [ ('й', 'q'), ('ц', 'w'), ('у', 'e'), ('к', 'r'), ('е', 't'), ('н', 'y'),
    ('г', 'u'), ('ш', 'i'), ('щ', 'o'), ('з', 'p'), ('ф', 'a'), ('ы', 's'),
    ('в', 'd'), ('а', 'f'), ('п', 'g'), ('р', 'h'), ('о', 'j'), ('л', 'k'),
    ('д', 'l'), ('я', 'z'), ('ч', 'x'), ('с', 'c'), ('м', 'v'), ('и', 'b'),
    ('т', 'n'), ('ь', 'm'),
    ('Й', 'Q'), ('Ц', 'W'), ('У', 'E'), ('К', 'R'), ('Е', 'T'), ('Н', 'Y'),
    ('Г', 'U'), ('Ш', 'I'), ('Щ', 'O'), ('З', 'P'), ('Ф', 'A'), ('Ы', 'S'),
    ('В', 'D'), ('А', 'F'), ('П', 'G'), ('Р', 'H'), ('О', 'J'), ('Л', 'K'),
    ('Д', 'L'), ('Я', 'Z'), ('Ч', 'X'), ('С', 'C'), ('М', 'V'), ('И', 'B'),
    ('Т', 'N'), ('Ь', 'M') ]

/-- Modelled from the spec: RU_TO_EN_MAPPING of layouts.py as a lookup in
the pair table (Cyrillic key side). -/
def RU_TO_EN_MAPPING (c : Char) : Option Char :=
  (LAYOUT_PAIRS.find? (fun p => p.1 == c)).map (fun p => p.2)

/-- Modelled from the spec: EN_TO_RU_MAPPING of layouts.py as a lookup in
the pair table (Latin key side). -/
def EN_TO_RU_MAPPING (c : Char) : Option Char :=
  (LAYOUT_PAIRS.find? (fun p => p.2 == c)).map (fun p => p.1)

/-- Modelled from the spec: RUSSIAN_CHAR_FREQUENCY of layouts.py, a
FrequencyTable from lowercase Cyrillic letters to relative frequencies on
a 0-100 scale (representative values). -/
def RUSSIAN_CHAR_FREQUENCY_TABLE : List (Char × ℚ) :=
  [ ('о', 11), ('е', 8), ('а', 8), ('и', 7), ('н', 7), ('т', 6), ('с', 5),
    ('р', 5), ('в', 4), ('л', 4), ('к', 3), ('м', 3), ('д', 3), ('п', 3),
    ('у', 3), ('я', 2), ('ы', 2), ('ь', 2), ('г', 2), ('з', 2), ('б', 2),
    ('ч', 1), ('й', 1), ('х', 1), ('ж', 1), ('ш', 1), ('ю', 1), ('ц', 1),
    ('щ', 1), ('э', 1), ('ф', 1), ('ъ', 1), ('ё', 1) ]

/-- Modelled from the spec: ENGLISH_CHAR_FREQUENCY of layouts.py, a
FrequencyTable from lowercase Latin letters to relative frequencies on a
0-100 scale (representative values). -/
def ENGLISH_CHAR_FREQUENCY_TABLE : List (Char × ℚ) :=
  [ ('e', 13), ('t', 9), ('a', 8), ('o', 8), ('i', 7), ('n', 7), ('s', 6),
    ('h', 6), ('r', 6), ('d', 4), ('l', 4), ('c', 3), ('u', 3), ('m', 2),
    ('w', 2), ('f', 2), ('g', 2), ('y', 2), ('p', 2), ('b', 1), ('v', 1),
    ('k', 1), ('j', 1), ('x', 1), ('q', 1), ('z', 1) ]

/-- Lookup in an association list of frequencies. -/
def freqLookup (table : List (Char × ℚ)) (c : Char) : Option ℚ :=
  (table.find? (fun p => p.1 == c)).map (fun p => p.2)

/-- Modelled from the spec: COMMON_RUSSIAN_WORDS of layouts.py, a
WordDictionary of common lowercase Russian words. -/
def COMMON_RUSSIAN_WORDS : List (List Char) :=
  [ "привет".toList, "мир".toList, "это".toList, "тест".toList,
    "и".toList, "не".toList, "на".toList, "что".toList, "как".toList,
    "да".toList ]

/-- Modelled from the spec: COMMON_ENGLISH_WORDS of layouts.py, a
WordDictionary of common lowercase English words. -/
def COMMON_ENGLISH_WORDS : List (List Char) :=
  [ "the".toList, "hello".toList, "world".toList, "this".toList,
    "is".toList, "a".toList, "test".toList, "and".toList, "you".toList,
    "for".toList, "are".toList, "not".toList, "with".toList,
    "have".toList, "that".toList ]

/-- Does the code point lie in the Cyrillic letter block used by the
layout (А-я plus Ё and ё)? -/
def isCyrillic (c : Char) : Bool :=
  (0x410 ≤ c.toNat && c.toNat ≤ 0x44F) || c == 'ё' || c == 'Ё'

/-- Python str.isalpha restricted to the two alphabets of the model. -/
def pyIsAlpha (c : Char) : Bool :=
  c.isAlpha || isCyrillic c

/-- Python str.lower restricted to the two alphabets of the model. -/
def pyLower (c : Char) : Char :=
  if 65 ≤ c.toNat ∧ c.toNat ≤ 90 then Char.ofNat (c.toNat + 32)
  else if 0x410 ≤ c.toNat ∧ c.toNat ≤ 0x42F then Char.ofNat (c.toNat + 32)
  else if c = 'Ё' then 'ё'
  else c

/-- The word-character class of the regex token used for tokenization:
alphabetic, decimal digit, or underscore. -/
def pyIsWordChar (c : Char) : Bool :=
  pyIsAlpha c || c.isDigit || c == '_'

/-- Python str.strip default whitespace set. -/
def pyIsSpace (c : Char) : Bool :=
  c == ' ' || c == '\t' || c == '\n' || c == '\x0d' ||
  c == '\x0b' || c == '\x0c'

/-- Modelled from the spec: the concrete environment of the program, the
algorithm of layout_detector.py instantiated with the static data of
layouts.py. -/
def specEnv : Env where
  isAlpha := pyIsAlpha
  lower := pyLower
  isWordChar := pyIsWordChar
  isSpace := pyIsSpace
  RUSSIAN_CHAR_FREQUENCY := freqLookup RUSSIAN_CHAR_FREQUENCY_TABLE
  ENGLISH_CHAR_FREQUENCY := freqLookup ENGLISH_CHAR_FREQUENCY_TABLE
  RU_TO_EN_MAPPING := RU_TO_EN_MAPPING
  EN_TO_RU_MAPPING := EN_TO_RU_MAPPING
  COMMON_RUSSIAN_WORDS := COMMON_RUSSIAN_WORDS
  COMMON_ENGLISH_WORDS := COMMON_ENGLISH_WORDS

/-- A small environment over the two-letter alphabets used to
instantiate the parametric theorems cheaply. -/
def miniEnv : Env where
  isAlpha := fun c => c == 'a' || c == 'b'
  lower := fun c => c
  isWordChar := fun c => c == 'a' || c == 'b'
  isSpace := fun c => c == ' '
  RUSSIAN_CHAR_FREQUENCY := fun c => if c == 'b' then some 50 else none
  ENGLISH_CHAR_FREQUENCY := fun c => if c == 'a' then some 50 else none
  RU_TO_EN_MAPPING := fun c => if c == 'b' then some 'a' else none
  EN_TO_RU_MAPPING := fun c => if c == 'a' then some 'b' else none
  COMMON_RUSSIAN_WORDS := []
  COMMON_ENGLISH_WORDS := [['a']]

/-! ### Helper lemmas -/

lemma hasContent_eq_false_of_all_space (env : Env) (text : List Char)
    (h : text.all env.isSpace = true) : hasContent env text = false := by
  rw [hasContent, List.any_eq_false]
  intro c hc
  simp only [Bool.not_eq_true', Bool.not_eq_false]
  exact List.all_eq_true.mp h c hc

lemma convert_text_getD (env : Env) (m : Char → Option Char)
    (hm : ∀ c, env.isAlpha c = false → m c = none) (text : List Char) (i : Nat)
    (h : env.isAlpha (text.getD i '?') = false) :
    (convert_text m text).getD i '?' = text.getD i '?' := by
  unfold convert_text
  rw [List.getD_eq_getD_get?, List.getD_eq_getD_get?, List.get?_map]
  rw [List.getD_eq_getD_get?] at h
  cases hg : text.get? i with
  | none => rfl
  | some c =>
    rw [hg] at h
    simp only [Option.map_some', Option.getD_some] at h ⊢
    rw [hm c h, Option.getD_none]

lemma LAYOUT_PAIRS_alpha :
    ∀ p ∈ LAYOUT_PAIRS, pyIsAlpha p.1 = true ∧ pyIsAlpha p.2 = true := by decide

lemma RU_TO_EN_MAPPING_alpha_only (c : Char) (h : pyIsAlpha c = false) :
    RU_TO_EN_MAPPING c = none := by
  cases hf : RU_TO_EN_MAPPING c with
  | none => rfl
  | some d =>
    exfalso
    unfold RU_TO_EN_MAPPING at hf
    cases hq : LAYOUT_PAIRS.find? (fun p => p.1 == c) with
    | none => rw [hq] at hf; simp at hf
    | some p =>
      have hm := List.mem_of_find?_eq_some hq
      have hp := List.find?_some hq
      simp only [beq_iff_eq] at hp
      have ha := (LAYOUT_PAIRS_alpha p hm).1
      rw [hp, h] at ha
      exact Bool.false_ne_true ha

lemma EN_TO_RU_MAPPING_alpha_only (c : Char) (h : pyIsAlpha c = false) :
    EN_TO_RU_MAPPING c = none := by
  cases hf : EN_TO_RU_MAPPING c with
  | none => rfl
  | some d =>
    exfalso
    unfold EN_TO_RU_MAPPING at hf
    cases hq : LAYOUT_PAIRS.find? (fun p => p.2 == c) with
    | none => rw [hq] at hf; simp at hf
    | some p =>
      have hm := List.mem_of_find?_eq_some hq
      have hp := List.find?_some hq
      simp only [beq_iff_eq] at hp
      have ha := (LAYOUT_PAIRS_alpha p hm).2
      rw [hp, h] at ha
      exact Bool.false_ne_true ha

lemma process_getD_of_notAlpha (env : Env) (th : ℚ) (text : List Char) (i : Nat)
    (hru : ∀ c, env.isAlpha c = false → env.RU_TO_EN_MAPPING c = none)
    (hen : ∀ c, env.isAlpha c = false → env.EN_TO_RU_MAPPING c = none)
    (h : env.isAlpha (text.getD i '?') = false) :
    (process env th text).getD i '?' = text.getD i '?' := by
  unfold process
  split
  · rfl
  · dsimp only
    split
    · rfl
    · split
      · exact convert_text_getD env _ hru text i h
      · split
        · exact convert_text_getD env _ hen text i h
        · rfl

/-! ### Claims -/

/-- C5: for every input that is empty or consists only of whitespace
characters, detect_layout returns the sentinel result: detected layout
unknown, intended layout unknown, confidence 0, needs_conversion false. -/
theorem C5_sentinel_on_blank (env : Env) (th : ℚ) (text : List Char)
    (h : text.all env.isSpace = true) :
    detect_layout env th text =
      { detected_layout := "unknown"
        intended_layout := "unknown"
        confidence := 0
        needs_conversion := false } := by
  have hc := hasContent_eq_false_of_all_space env text h
  rw [detect_layout, if_pos hc]

/-- Witness for C5 at the whitespace-only input of the spec scenario. -/
theorem C5_sentinel_on_blank_witness :
    "   \n\t".toList.all specEnv.isSpace = true ∧
    detect_layout specEnv (3/10) "   \n\t".toList =
      { detected_layout := "unknown"
        intended_layout := "unknown"
        confidence := 0
        needs_conversion := false } :=
  ⟨by decide, C5_sentinel_on_blank specEnv (3/10) "   \n\t".toList (by decide)⟩

/-- C6: for every environment, threshold and input text, the output of
process has the same length as the input. -/
theorem C6_length_preservation (env : Env) (th : ℚ) (text : List Char) :
    (process env th text).length = text.length := by
  unfold process
  split
  · rfl
  · dsimp only
    split
    · rfl
    · split
      · simp [convert_text]
      · split
        · simp [convert_text]
        · rfl

/-- C4: can_process agrees with the needs_conversion field of
detect_layout, and whenever can_process is false, process returns the
input unchanged. -/
theorem C4_can_process_consistency (env : Env) (th : ℚ) (text : List Char) :
    can_process env th text = (detect_layout env th text).needs_conversion
    ∧ (can_process env th text = false → process env th text = text) := by
  have h1 : can_process env th text = (detect_layout env th text).needs_conversion := by
    by_cases hc : hasContent env text = false
    · rw [can_process, if_pos hc, detect_layout, if_pos hc]
    · rw [can_process, if_neg hc]
  refine ⟨h1, fun h => ?_⟩
  by_cases hc : hasContent env text = false
  · rw [process, if_pos hc]
  · have hn : (detect_layout env th text).needs_conversion = false := by
      rw [← h1]; exact h
    rw [process, if_neg hc]
    simp only [hn, if_pos]

/-- Witness for C4 at the empty input. -/
theorem C4_can_process_consistency_witness :
    can_process specEnv (3/10) [] = false ∧ process specEnv (3/10) [] = [] :=
  ⟨by decide, (C4_can_process_consistency specEnv (3/10) []).2 (by decide)⟩

/-- C2: every non-alphabetic character of the input is returned unchanged
at its position by process, for any confidence threshold. -/
theorem C2_structure_preservation (th : ℚ) (text : List Char) (i : Nat)
    (h : pyIsAlpha (text.getD i '?') = false) :
    (process specEnv th text).getD i '?' = text.getD i '?' :=
  process_getD_of_notAlpha specEnv th text i
    (fun c hc => RU_TO_EN_MAPPING_alpha_only c hc)
    (fun c hc => EN_TO_RU_MAPPING_alpha_only c hc) h

/-- Witness for C2: the digit at position 6 of the mixed spec scenario
input is preserved. -/
theorem C2_structure_preservation_witness :
    pyIsAlpha ("руддщ 123!".toList.getD 6 '?') = false ∧
    (process specEnv (3/10) "руддщ 123!".toList).getD 6 '?' =
      "руддщ 123!".toList.getD 6 '?' :=
  ⟨by decide, C2_structure_preservation (3/10) "руддщ 123!".toList 6 (by decide)⟩

/-! ### Decision rule (C3, C10, C1) -/

/-- C3: for every non-blank input, the detection result reports a ru to en
conversion exactly when that direction's word score beats both current
word scores and reaches the threshold; the en to ru direction is accepted
exactly when it qualifies and the first direction does not; and when
neither qualifies the result needs no conversion, the intended layout is
the detected one and the confidence is the maximum of the two character
frequency scores. -/
theorem C3_decision_rule (env : Env) (th : ℚ) (text : List Char)
    (h : hasContent env text = true) :
    (((detect_layout env th text).needs_conversion = true ∧
        (detect_layout env th text).intended_layout = "en") ↔
      ru_to_en_accepts env th text)
    ∧ (((detect_layout env th text).needs_conversion = true ∧
        (detect_layout env th text).intended_layout = "ru") ↔
      (¬ ru_to_en_accepts env th text ∧ en_to_ru_accepts env th text))
    ∧ ((¬ ru_to_en_accepts env th text ∧ ¬ en_to_ru_accepts env th text) →
      (detect_layout env th text).needs_conversion = false
      ∧ (detect_layout env th text).intended_layout =
          (detect_layout env th text).detected_layout
      ∧ (detect_layout env th text).confidence =
          max (calculate_frequency_score env env.RUSSIAN_CHAR_FREQUENCY text)
            (calculate_frequency_score env env.ENGLISH_CHAR_FREQUENCY text)) := by
  have hc : ¬ (hasContent env text = false) := by simp [h]
  have hne1 : ("en" : String) ≠ "ru" := by decide
  have hne2 : ("ru" : String) ≠ "en" := by decide
  by_cases hq1 : ru_to_en_accepts env th text
  · rw [detect_layout, if_neg hc, if_pos hq1]
    exact ⟨iff_of_true ⟨rfl, rfl⟩ hq1,
      iff_of_false (fun hcon => hne1 hcon.2) (fun hcon => hcon.1 hq1),
      fun hcon => absurd hq1 hcon.1⟩
  · by_cases hq2 : en_to_ru_accepts env th text
    · rw [detect_layout, if_neg hc, if_neg hq1, if_pos hq2]
      exact ⟨iff_of_false (fun hcon => hne2 hcon.2) hq1,
        iff_of_true ⟨rfl, rfl⟩ ⟨hq1, hq2⟩,
        fun hcon => absurd hq2 hcon.2⟩
    · rw [detect_layout, if_neg hc, if_neg hq1, if_neg hq2]
      exact ⟨iff_of_false (fun hcon => absurd hcon.1 (by simp)) hq1,
        iff_of_false (fun hcon => absurd hcon.1 (by simp)) (fun hcon => hq2 hcon.2),
        fun hcon => ⟨rfl, rfl, rfl⟩⟩

/-- Witness for C3 at a concrete accepted conversion. -/
theorem C3_decision_rule_witness :
    ((detect_layout miniEnv (3/10) ['b']).needs_conversion = true ∧
      (detect_layout miniEnv (3/10) ['b']).intended_layout = "en") ↔
    ru_to_en_accepts miniEnv (3/10) ['b'] :=
  (C3_decision_rule miniEnv (3/10) ['b'] (by decide)).1

/-- C10: whenever the detection result asks for a conversion, the reported
confidence is at least the configured threshold. -/
theorem C10_accepted_confidence_ge_threshold (env : Env) (th : ℚ) (text : List Char)
    (h : (detect_layout env th text).needs_conversion = true) :
    (detect_layout env th text).confidence ≥ th := by
  by_cases hc : hasContent env text = false
  · rw [detect_layout, if_pos hc] at h
    simp at h
  · by_cases hq1 : ru_to_en_accepts env th text
    · rw [detect_layout, if_neg hc, if_pos hq1]
      exact hq1.2.2
    · by_cases hq2 : en_to_ru_accepts env th text
      · rw [detect_layout, if_neg hc, if_neg hq1, if_pos hq2]
        exact hq2.2.2
      · rw [detect_layout, if_neg hc, if_neg hq1, if_neg hq2] at h
        simp at h

/-- Witness for C10 at a concrete accepted conversion. -/
theorem C10_accepted_confidence_ge_threshold_witness :
    (detect_layout miniEnv (3/10) ['b']).confidence ≥ 3/10 :=
  C10_accepted_confidence_ge_threshold miniEnv (3/10) ['b']
    (by with_unfolding_all decide)

/-- Counterexample to C1 as stated: on this input the detector accepts the
ru to en conversion while the apparent layout is already en, so the
intended layout equals the detected layout even though needs_conversion is
true. -/
theorem C1_counterexample :
    (detect_layout specEnv (3/10) "the the the руддщ цщкдв".toList).needs_conversion
      = true
    ∧ (detect_layout specEnv (3/10) "the the the руддщ цщкдв".toList).intended_layout
      = (detect_layout specEnv (3/10) "the the the руддщ цщкдв".toList).detected_layout := by
  with_unfolding_all decide

/-- C1 amended: whenever needs_conversion is true the intended layout is
one of the two concrete layouts en or ru, never unknown; it may however
coincide with the detected (apparent) layout. -/
theorem C1_amended_intended_concrete (env : Env) (th : ℚ) (text : List Char)
    (h : (detect_layout env th text).needs_conversion = true) :
    (detect_layout env th text).intended_layout = "en" ∨
    (detect_layout env th text).intended_layout = "ru" := by
  by_cases hc : hasContent env text = false
  · rw [detect_layout, if_pos hc] at h
    simp at h
  · by_cases hq1 : ru_to_en_accepts env th text
    · rw [detect_layout, if_neg hc, if_pos hq1]
      exact Or.inl rfl
    · by_cases hq2 : en_to_ru_accepts env th text
      · rw [detect_layout, if_neg hc, if_neg hq1, if_pos hq2]
        exact Or.inr rfl
      · rw [detect_layout, if_neg hc, if_neg hq1, if_neg hq2] at h
        simp at h

/-- Witness for the amended C1 at a concrete accepted conversion. -/
theorem C1_amended_intended_concrete_witness :
    (detect_layout miniEnv (3/10) ['b']).intended_layout = "en" ∨
    (detect_layout miniEnv (3/10) ['b']).intended_layout = "ru" :=
  C1_amended_intended_concrete miniEnv (3/10) ['b']
    (by with_unfolding_all decide)

/-! ### Frequency score and apparent layout (C7) -/

/-- The frequency score as the spec words it: the sum, over the distinct
lowercase alphabetic characters of the text present in the frequency
table, of min(expected relative frequency, actual relative frequency),
clamped to at most 1, and 0 when the text has no alphabetic characters. -/
def freq_score_spec (env : Env) (char_freq : Char → Option ℚ)
    (text : List Char) : ℚ :=
  let chars := (text.map env.lower).filter env.isAlpha
  if chars.length = 0 then 0
  else
    min (((chars.dedup.filter (fun c => (char_freq c).isSome)).map
      (fun c => min (((char_freq c).getD 0) / 100)
        ((chars.count c : ℚ) / (chars.length : ℚ)))).sum) 1

lemma sum_freq_term_eq_filter (char_freq : Char → Option ℚ) (act : Char → ℚ) :
    ∀ L : List Char,
      (L.map (fun c => freq_term char_freq (act c) c)).sum
        = ((L.filter (fun c => (char_freq c).isSome)).map
            (fun c => min (((char_freq c).getD 0) / 100) (act c))).sum := by
  intro L
  induction L with
  | nil => rfl
  | cons c L ih =>
    rw [List.map_cons, List.sum_cons, List.filter_cons]
    cases hf : char_freq c with
    | none =>
      have h1 : freq_term char_freq (act c) c = 0 := by
        unfold freq_term
        rw [hf]
      rw [h1, zero_add, ih]
      simp [hf]
    | some q =>
      have h1 : freq_term char_freq (act c) c = min (q / 100) (act c) := by
        unfold freq_term
        rw [hf]
      rw [h1, ih]
      simp [hf]

lemma calculate_frequency_score_eq_spec (env : Env) (char_freq : Char → Option ℚ)
    (text : List Char) :
    calculate_frequency_score env char_freq text
      = freq_score_spec env char_freq text := by
  simp only [calculate_frequency_score, freq_score_spec]
  by_cases h0 : ((text.map env.lower).filter env.isAlpha).length = 0
  · rw [if_pos h0, if_pos h0]
  · rw [if_neg h0, if_neg h0,
      sum_freq_term_eq_filter char_freq
        (fun c => ((((text.map env.lower).filter env.isAlpha).count c : ℚ)
          / (((text.map env.lower).filter env.isAlpha).length : ℚ)))]

lemma detected_layout_eq_apparent (env : Env) (th : ℚ) (text : List Char)
    (h : hasContent env text = true) :
    (detect_layout env th text).detected_layout = apparent_layout env text := by
  have hc : ¬ (hasContent env text = false) := by simp [h]
  rw [detect_layout, if_neg hc]
  by_cases hq1 : ru_to_en_accepts env th text
  · rw [if_pos hq1]
  · by_cases hq2 : en_to_ru_accepts env th text
    · rw [if_neg hq1, if_pos hq2]
    · rw [if_neg hq1, if_neg hq2]

/-- C7: for every non-blank input the detected layout is ru exactly when
the Russian character frequency score strictly exceeds the English one and
en otherwise (ties give en), and both frequency scores equal the clamped
sum of per-character minima described by the spec. -/
theorem C7_apparent_layout_rule (env : Env) (th : ℚ) (text : List Char)
    (h : hasContent env text = true) :
    ((detect_layout env th text).detected_layout = "ru" ↔
      calculate_frequency_score env env.RUSSIAN_CHAR_FREQUENCY text >
        calculate_frequency_score env env.ENGLISH_CHAR_FREQUENCY text)
    ∧ ((detect_layout env th text).detected_layout = "en" ↔
      ¬ (calculate_frequency_score env env.RUSSIAN_CHAR_FREQUENCY text >
        calculate_frequency_score env env.ENGLISH_CHAR_FREQUENCY text))
    ∧ calculate_frequency_score env env.RUSSIAN_CHAR_FREQUENCY text
        = freq_score_spec env env.RUSSIAN_CHAR_FREQUENCY text
    ∧ calculate_frequency_score env env.ENGLISH_CHAR_FREQUENCY text
        = freq_score_spec env env.ENGLISH_CHAR_FREQUENCY text := by
  refine ⟨?_, ?_, calculate_frequency_score_eq_spec env _ text,
    calculate_frequency_score_eq_spec env _ text⟩
  · rw [detected_layout_eq_apparent env th text h, apparent_layout]
    by_cases hr : calculate_frequency_score env env.RUSSIAN_CHAR_FREQUENCY text >
        calculate_frequency_score env env.ENGLISH_CHAR_FREQUENCY text
    · rw [if_pos hr]
      exact iff_of_true rfl hr
    · rw [if_neg hr]
      exact iff_of_false (by decide) hr
  · rw [detected_layout_eq_apparent env th text h, apparent_layout]
    by_cases hr : calculate_frequency_score env env.RUSSIAN_CHAR_FREQUENCY text >
        calculate_frequency_score env env.ENGLISH_CHAR_FREQUENCY text
    · rw [if_pos hr]
      exact iff_of_false (by decide) (fun hcon => hcon hr)
    · rw [if_neg hr]
      exact iff_of_true rfl hr

/-- Witness for C7 at a concrete non-blank input. -/
theorem C7_apparent_layout_rule_witness :
    (detect_layout miniEnv (3/10) ['b']).detected_layout = "ru" ↔
      calculate_frequency_score miniEnv miniEnv.RUSSIAN_CHAR_FREQUENCY ['b'] >
        calculate_frequency_score miniEnv miniEnv.ENGLISH_CHAR_FREQUENCY ['b'] :=
  (C7_apparent_layout_rule miniEnv (3/10) ['b'] (by decide)).1

/-! ### Confidence bounds (C9) -/

lemma word_fraction_bounds (common_words words : List (List Char)) :
    0 ≤ word_fraction common_words words
    ∧ word_fraction common_words words ≤ 1 := by
  unfold word_fraction
  by_cases hw : words = []
  · rw [if_pos hw]
    exact ⟨le_refl 0, zero_le_one⟩
  · rw [if_neg hw]
    have hl : (0:ℚ) < (words.length : ℚ) := by
      exact_mod_cast List.length_pos.mpr hw
    constructor
    · positivity
    · rw [div_le_one hl]
      exact_mod_cast List.length_filter_le _ _

lemma check_common_words_after_conversion_bounds (env : Env) (text : List Char)
    (conversion_type : String) :
    0 ≤ check_common_words_after_conversion env text conversion_type
    ∧ check_common_words_after_conversion env text conversion_type ≤ 1 := by
  unfold check_common_words_after_conversion
  exact word_fraction_bounds _ _

lemma calculate_frequency_score_bounds (env : Env) (char_freq : Char → Option ℚ)
    (text : List Char) (hf : ∀ c q, char_freq c = some q → 0 ≤ q) :
    0 ≤ calculate_frequency_score env char_freq text
    ∧ calculate_frequency_score env char_freq text ≤ 1 := by
  simp only [calculate_frequency_score]
  by_cases h0 : ((text.map env.lower).filter env.isAlpha).length = 0
  · rw [if_pos h0]
    exact ⟨le_refl 0, zero_le_one⟩
  · rw [if_neg h0]
    constructor
    · refine le_min ?_ zero_le_one
      refine List.sum_nonneg ?_
      intro x hx
      simp only [List.mem_map] at hx
      obtain ⟨c, hc, rfl⟩ := hx
      unfold freq_term
      cases hfc : char_freq c with
      | none => exact le_refl 0
      | some q =>
        refine le_min ?_ (by positivity)
        exact div_nonneg (hf c q hfc) (by norm_num)
    · exact min_le_right _ _

lemma detect_confidence_bounds (env : Env) (th : ℚ) (text : List Char)
    (hru : ∀ c q, env.RUSSIAN_CHAR_FREQUENCY c = some q → 0 ≤ q)
    (hen : ∀ c q, env.ENGLISH_CHAR_FREQUENCY c = some q → 0 ≤ q) :
    0 ≤ (detect_layout env th text).confidence
    ∧ (detect_layout env th text).confidence ≤ 1 := by
  by_cases hc : hasContent env text = false
  · rw [detect_layout, if_pos hc]
    exact ⟨le_refl 0, zero_le_one⟩
  · by_cases hq1 : ru_to_en_accepts env th text
    · rw [detect_layout, if_neg hc, if_pos hq1]
      exact check_common_words_after_conversion_bounds env text "ru_to_en"
    · by_cases hq2 : en_to_ru_accepts env th text
      · rw [detect_layout, if_neg hc, if_neg hq1, if_pos hq2]
        exact check_common_words_after_conversion_bounds env text "en_to_ru"
      · rw [detect_layout, if_neg hc, if_neg hq1, if_neg hq2]
        have hr := calculate_frequency_score_bounds env env.RUSSIAN_CHAR_FREQUENCY text hru
        have he := calculate_frequency_score_bounds env env.ENGLISH_CHAR_FREQUENCY text hen
        exact ⟨le_max_of_le_left hr.1, max_le hr.2 he.2⟩

lemma freqLookup_nonneg (table : List (Char × ℚ))
    (htab : ∀ r ∈ table, 0 ≤ r.2) :
    ∀ c q, freqLookup table c = some q → 0 ≤ q := by
  intro c q h
  unfold freqLookup at h
  cases hq : table.find? (fun p => p.1 == c) with
  | none =>
    rw [hq] at h
    simp at h
  | some p =>
    rw [hq] at h
    simp only [Option.map_some', Option.some.injEq] at h
    rw [← h]
    exact htab p (List.mem_of_find?_eq_some hq)

lemma RUSSIAN_CHAR_FREQUENCY_TABLE_nonneg :
    ∀ r ∈ RUSSIAN_CHAR_FREQUENCY_TABLE, 0 ≤ r.2 := by decide

lemma ENGLISH_CHAR_FREQUENCY_TABLE_nonneg :
    ∀ r ∈ ENGLISH_CHAR_FREQUENCY_TABLE, 0 ≤ r.2 := by decide

/-- C9: for every threshold and every input text, the confidence reported
by the detector over the concrete tables lies in the closed unit
interval. -/
theorem C9_confidence_unit_interval (th : ℚ) (text : List Char) :
    0 ≤ (detect_layout specEnv th text).confidence
    ∧ (detect_layout specEnv th text).confidence ≤ 1 :=
  detect_confidence_bounds specEnv th text
    (freqLookup_nonneg RUSSIAN_CHAR_FREQUENCY_TABLE RUSSIAN_CHAR_FREQUENCY_TABLE_nonneg)
    (freqLookup_nonneg ENGLISH_CHAR_FREQUENCY_TABLE ENGLISH_CHAR_FREQUENCY_TABLE_nonneg)

/-! ### The map pair table is inverse in both directions (C8) -/

lemma LAYOUT_PAIRS_nodup_fst : (LAYOUT_PAIRS.map Prod.fst).Nodup := by decide

lemma LAYOUT_PAIRS_nodup_snd : (LAYOUT_PAIRS.map Prod.snd).Nodup := by decide

lemma find?_proj_eq_of_mem (f : Char × Char → Char) :
    ∀ (l : List (Char × Char)), (l.map f).Nodup →
      ∀ p ∈ l, l.find? (fun r => f r == f p) = some p := by
  intro l
  induction l with
  | nil =>
    intro _ p hp
    cases hp
  | cons a l ih =>
    intro hnd p hp
    rw [List.map_cons, List.nodup_cons] at hnd
    cases hp with
    | head =>
      apply List.find?_cons_of_pos
      exact beq_self_eq_true (f a)
    | tail _ hp =>
      have hne : f a ≠ f p := by
        intro he
        exact hnd.1 (he ▸ List.mem_map_of_mem f hp)
      rw [List.find?_cons_of_neg, ih hnd.2 p hp]
      simp [hne]

lemma RU_TO_EN_MAPPING_of_mem (p : Char × Char) (hm : p ∈ LAYOUT_PAIRS) :
    RU_TO_EN_MAPPING p.1 = some p.2 := by
  unfold RU_TO_EN_MAPPING
  rw [find?_proj_eq_of_mem Prod.fst LAYOUT_PAIRS LAYOUT_PAIRS_nodup_fst p hm]
  rfl

lemma EN_TO_RU_MAPPING_of_mem (p : Char × Char) (hm : p ∈ LAYOUT_PAIRS) :
    EN_TO_RU_MAPPING p.2 = some p.1 := by
  unfold EN_TO_RU_MAPPING
  rw [find?_proj_eq_of_mem Prod.snd LAYOUT_PAIRS LAYOUT_PAIRS_nodup_snd p hm]
  rfl

lemma mem_of_RU_TO_EN_MAPPING (a b : Char) (h : RU_TO_EN_MAPPING a = some b) :
    (a, b) ∈ LAYOUT_PAIRS := by
  unfold RU_TO_EN_MAPPING at h
  cases hq : LAYOUT_PAIRS.find? (fun r => r.1 == a) with
  | none =>
    rw [hq] at h
    simp at h
  | some p =>
    rw [hq] at h
    simp only [Option.map_some', Option.some.injEq] at h
    have hm := List.mem_of_find?_eq_some hq
    have hp := List.find?_some hq
    simp only [beq_iff_eq] at hp
    have hpab : p = (a, b) := by
      cases p
      simp only [Prod.mk.injEq]
      exact ⟨hp, h⟩
    rw [← hpab]
    exact hm

lemma mem_of_EN_TO_RU_MAPPING (a b : Char) (h : EN_TO_RU_MAPPING b = some a) :
    (a, b) ∈ LAYOUT_PAIRS := by
  unfold EN_TO_RU_MAPPING at h
  cases hq : LAYOUT_PAIRS.find? (fun r => r.2 == b) with
  | none =>
    rw [hq] at h
    simp at h
  | some p =>
    rw [hq] at h
    simp only [Option.map_some', Option.some.injEq] at h
    have hm := List.mem_of_find?_eq_some hq
    have hp := List.find?_some hq
    simp only [beq_iff_eq] at hp
    have hpab : p = (a, b) := by
      cases p
      simp only [Prod.mk.injEq]
      exact ⟨h, hp⟩
    rw [← hpab]
    exact hm

/-- C8: the two character maps are structurally inverse, pair for pair,
and applying the ru to en map then the en to ru map restores every string
whose characters all lie in the Russian-side domain. -/
theorem C8_mapping_inverse :
    (∀ a b, RU_TO_EN_MAPPING a = some b ↔ EN_TO_RU_MAPPING b = some a)
    ∧ ∀ text : List Char, (∀ c ∈ text, (RU_TO_EN_MAPPING c).isSome = true) →
        convert_text EN_TO_RU_MAPPING (convert_text RU_TO_EN_MAPPING text) = text := by
  have hpair : ∀ a b, RU_TO_EN_MAPPING a = some b ↔ EN_TO_RU_MAPPING b = some a := by
    intro a b
    constructor
    · intro h
      exact EN_TO_RU_MAPPING_of_mem (a, b) (mem_of_RU_TO_EN_MAPPING a b h)
    · intro h
      exact RU_TO_EN_MAPPING_of_mem (a, b) (mem_of_EN_TO_RU_MAPPING a b h)
  refine ⟨hpair, ?_⟩
  intro text
  induction text with
  | nil =>
    intro _
    rfl
  | cons c t ih =>
    intro hdom
    have hc := hdom c (List.mem_cons_self c t)
    obtain ⟨b, hb⟩ := Option.isSome_iff_exists.mp hc
    have hback : EN_TO_RU_MAPPING b = some c := (hpair c b).mp hb
    have ht := ih (fun x hx => hdom x (List.mem_cons_of_mem c hx))
    unfold convert_text at ht ⊢
    rw [List.map_cons, List.map_cons, hb, Option.getD_some, hback,
      Option.getD_some, ht]

/-- Witness for C8: the round trip on the Cyrillic input of the spec
scenario. -/
theorem C8_mapping_inverse_witness :
    (∀ c ∈ "руддщ".toList, (RU_TO_EN_MAPPING c).isSome = true)
    ∧ convert_text EN_TO_RU_MAPPING (convert_text RU_TO_EN_MAPPING "руддщ".toList)
      = "руддщ".toList :=
  ⟨by decide, C8_mapping_inverse.2 "руддщ".toList (by decide)⟩

end Clipper
